import Mathlib

/-!
Verification of the spaced-repetition core of the pet-english-app
repository: the SM-2 scheduler (`sm2Update`), the word-bank store
(`rateWord`, `getDueWords`, page-level `addToWordBank`), the review
fallback (`startReview`), and the error log (`recordError`,
`recordExerciseError`, the error-list sort).

Numbers are embedded as exact rationals (`ℚ`); timestamps as integers
(`ℤ`), with `nextReview = now + interval` abstracting the source's
date arithmetic (days granularity).
-/

/-- Scheduling state as produced by `sm2Update` in
`frontend/src/hooks/useSpacedRepetition.js`: the fields
`interval`, `repetition`, `easeFactor`, `nextReview`, `lastReview`. -/
structure Sm2State where
  interval : ℤ
  repetition : ℕ
  easeFactor : ℚ
  nextReview : ℤ
  lastReview : ℤ
  deriving Repr, DecidableEq

/-- The defaults substituted for a null state in `sm2Update`:
`{ interval: 0, repetition: 0, easeFactor: 2.5 }`. -/
def defaultSm2 : Sm2State :=
  { interval := 0, repetition := 0, easeFactor := 5 / 2, nextReview := 0, lastReview := 0 }

/-- `state || { interval: 0, repetition: 0, easeFactor: 2.5 }`. -/
def stateOrDefault (state : Option Sm2State) : Sm2State :=
  state.getD defaultSm2

/-- JavaScript `Math.round(x * 100) / 100`: round to two decimal places,
halves away from negative infinity (`Math.round` rounds half up, which is
exactly Mathlib's `round` on `ℚ`). -/
def round2 (x : ℚ) : ℚ :=
  (round (x * 100) : ℚ) / 100

/-- The ease-factor recurrence of `sm2Update` (line 35 of
`useSpacedRepetition.js`):
`Math.max(1.3, easeFactor + (0.1 - (5 - q) * (0.08 + (5 - q) * 0.02)))`. -/
def efUpdate (easeFactor q : ℚ) : ℚ :=
  max (13 / 10) (easeFactor + (1 / 10 - (5 - q) * (2 / 25 + (5 - q) * (1 / 50))))

/-- `sm2Update(state, rating)` from `useSpacedRepetition.js`, with the
wall clock injected as `now`.  `q = rating * 5 / 3`; `q < 3` resets
`repetition` to 0 and `interval` to 1; otherwise the interval ladder
1 / 6 / `Math.round(interval * easeFactor)` is chosen by the old
`repetition` and `repetition` is incremented.  The ease factor is
recomputed on every call and rounded to 2 decimals. -/
def sm2Update (state : Option Sm2State) (rating : ℚ) (now : ℤ) : Sm2State :=
  let s := stateOrDefault state
  let q : ℚ := rating * 5 / 3
  let ir : ℤ × ℕ :=
    if q < 3 then
      (1, 0)
    else
      (if s.repetition = 0 then 1
       else if s.repetition = 1 then 6
       else round ((s.interval : ℚ) * s.easeFactor),
       s.repetition + 1)
  { interval := ir.1
    repetition := ir.2
    easeFactor := round2 (efUpdate s.easeFactor q)
    nextReview := now + ir.1
    lastReview := now }

/-- An entry of the hook's word bank (localStorage key `pet_word_bank`):
`{ word, source, addedAt, sm2 }`, where `sm2` is absent until the word
is first rated. -/
structure WordEntry where
  word : String
  source : String
  addedAt : ℤ
  sm2 : Option Sm2State
  deriving Repr, DecidableEq

/-- `rateWord(word, rating)` from `useSpacedRepetition.js`: map over the
bank updating the matching entry's `sm2`; if no entry matches, push a new
`{ word, source: 'flashcard', addedAt, sm2: sm2Update(null, rating) }`. -/
def rateWord (bank : List WordEntry) (word : String) (rating : ℚ) (now : ℤ) :
    List WordEntry :=
  let updated := bank.map fun w =>
    if w.word ≠ word then w else { w with sm2 := some (sm2Update w.sm2 rating now) }
  if (updated.find? fun w => w.word = word).isSome then updated
  else updated ++ [{ word := word, source := "flashcard", addedAt := now,
                     sm2 := some (sm2Update none rating now) }]

/-- `getDueWords()` from `useSpacedRepetition.js`: keep entries with no
`sm2` state, or whose `nextReview` is not after `now`. -/
def getDueWords (bank : List WordEntry) (now : ℤ) : List WordEntry :=
  bank.filter fun w =>
    match w.sm2 with
    | none => true
    | some s => s.nextReview ≤ now

/-- The `stats` object of `useSpacedRepetition.js`. -/
structure Stats where
  learned : ℕ
  due : ℕ
  mastered : ℕ
  total : ℕ
  deriving Repr, DecidableEq

/-- `stats` from `useSpacedRepetition.js`: `learned` counts entries with
`sm2?.repetition > 0`, `due` is `getDueWords().length`, `mastered` counts
`sm2?.repetition >= 5`, `total` is the bank size. -/
def stats (bank : List WordEntry) (now : ℤ) : Stats :=
  { learned := (bank.filter fun w => w.sm2.elim false fun s => 0 < s.repetition).length
    due := (getDueWords bank now).length
    mastered := (bank.filter fun w => w.sm2.elim false fun s => 5 ≤ s.repetition).length
    total := bank.length }

/-- The `reviewDue` badge count of the `Home` component: it counts an
entry only if it HAS an `sm2` state (`if (!w.sm2) return false`) whose
`nextReview` is not after now. -/
def homeReviewDue (bank : List WordEntry) (now : ℤ) : ℕ :=
  (bank.filter fun w =>
    match w.sm2 with
    | none => false
    | some s => s.nextReview ≤ now).length

/-- Folding a sequence of grades through the scheduler, as a review
session does: each grade's output becomes the next call's input state. -/
def runGrades (state : Option Sm2State) (gs : List ℚ) (now : ℤ) : Option Sm2State :=
  gs.foldl (fun s g => some (sm2Update s g now)) state

theorem round2_le_round2 {x y : ℚ} (h : x ≤ y) : round2 x ≤ round2 y := by
  unfold round2
  have hr : round (x * 100) ≤ round (y * 100) := by
    rw [round_eq, round_eq]
    exact Int.floor_le_floor (by nlinarith)
  have hq : ((round (x * 100) : ℚ)) ≤ ((round (y * 100) : ℚ)) := by exact_mod_cast hr
  gcongr

theorem round2_int (n : ℤ) : round2 ((n : ℚ)) = (n : ℚ) := by
  unfold round2
  have : ((n : ℚ)) * 100 = ((n * 100 : ℤ) : ℚ) := by push_cast; ring
  rw [this, round_intCast]
  push_cast
  field_simp

theorem round2_floor13 {x : ℚ} (hx : 13 / 10 ≤ x) : 13 / 10 ≤ round2 x := by
  have h1 : round2 (13 / 10 : ℚ) = 13 / 10 := by
    unfold round2
    norm_num [round_eq]
  calc (13 / 10 : ℚ) = round2 (13 / 10) := h1.symm
    _ ≤ round2 x := round2_le_round2 hx

theorem sm2Update_easeFactor_eq (state : Option Sm2State) (g : ℚ) (now : ℤ) :
    (sm2Update state g now).easeFactor = round2 (efUpdate (stateOrDefault state).easeFactor (g * 5 / 3)) := by
  simp [sm2Update]

theorem sm2Update_easeFactor_floor (state : Option Sm2State) (g : ℚ) (now : ℤ) :
    13 / 10 ≤ (sm2Update state g now).easeFactor := by
  rw [sm2Update_easeFactor_eq]
  exact round2_floor13 (le_max_left _ _)

theorem runGrades_easeFactor_floor (now : ℤ) (gs : List ℚ) :
    ∀ state : Option Sm2State, 13 / 10 ≤ (stateOrDefault state).easeFactor →
      13 / 10 ≤ (stateOrDefault (runGrades state gs now)).easeFactor := by
  induction gs with
  | nil => intro state h; simpa [runGrades] using h
  | cons g gs ih =>
    intro state h
    have : runGrades state (g :: gs) now = runGrades (some (sm2Update state g now)) gs now := by
      simp [runGrades]
    rw [this]
    exact ih _ (by simpa [stateOrDefault] using sm2Update_easeFactor_floor state g now)


/-- C1: for every input state (null treated as interval 0, repetition 0,
easeFactor 2.5) and every valid grade in the four-level enum, a grade with
q = g*5/3 below 3 (exactly g = 0 or 1) resets repetition to 0 and interval
to 1; otherwise repetition becomes repetition + 1 and the interval is 1
when the new repetition is 1, 6 when it is 2, and
round(previous interval * easeFactor) when it is greater than 2. -/
theorem sm2Update_interval_repetition (state : Option Sm2State) (g : ℚ) (now : ℤ)
    (hg : g = 0 ∨ g = 1 ∨ g = 2 ∨ g = 3) :
    (g * 5 / 3 < 3 ↔ g = 0 ∨ g = 1) ∧
    ((g = 0 ∨ g = 1) →
      (sm2Update state g now).repetition = 0 ∧ (sm2Update state g now).interval = 1) ∧
    ((g = 2 ∨ g = 3) →
      (sm2Update state g now).repetition = (stateOrDefault state).repetition + 1 ∧
      ((sm2Update state g now).repetition = 1 → (sm2Update state g now).interval = 1) ∧
      ((sm2Update state g now).repetition = 2 → (sm2Update state g now).interval = 6) ∧
      (2 < (sm2Update state g now).repetition →
        (sm2Update state g now).interval =
          round (((stateOrDefault state).interval : ℚ) * (stateOrDefault state).easeFactor))) := by
  have main : ∀ h3 : ¬ (g * 5 / 3 < 3),
      (sm2Update state g now).repetition = (stateOrDefault state).repetition + 1 ∧
      ((sm2Update state g now).repetition = 1 → (sm2Update state g now).interval = 1) ∧
      ((sm2Update state g now).repetition = 2 → (sm2Update state g now).interval = 6) ∧
      (2 < (sm2Update state g now).repetition →
        (sm2Update state g now).interval =
          round (((stateOrDefault state).interval : ℚ) * (stateOrDefault state).easeFactor)) := by
    intro h3
    rcases hrep : (stateOrDefault state).repetition with _ | n
    · simp [sm2Update, hrep, if_neg h3]
    · rcases n with _ | m
      · simp [sm2Update, hrep, if_neg h3]
      · simp [sm2Update, hrep, if_neg h3]
  constructor
  · rcases hg with h | h | h | h <;> subst h <;> norm_num
  constructor
  · rintro (h | h) <;> subst h <;> norm_num [sm2Update]
  · rintro (h | h) <;> subst h <;> exact main (by norm_num)

/-- Witness for C1 at state = none, g = 2, now = 0. -/
theorem sm2Update_interval_repetition_witness :
    (((2 : ℚ) = 0 ∨ (2 : ℚ) = 1 ∨ (2 : ℚ) = 2 ∨ (2 : ℚ) = 3) ∧
      (((2 : ℚ) * 5 / 3 < 3 ↔ (2 : ℚ) = 0 ∨ (2 : ℚ) = 1) ∧
      (((2 : ℚ) = 0 ∨ (2 : ℚ) = 1) →
        (sm2Update none 2 0).repetition = 0 ∧ (sm2Update none 2 0).interval = 1) ∧
      (((2 : ℚ) = 2 ∨ (2 : ℚ) = 3) →
        (sm2Update none 2 0).repetition = (stateOrDefault none).repetition + 1 ∧
        ((sm2Update none 2 0).repetition = 1 → (sm2Update none 2 0).interval = 1) ∧
        ((sm2Update none 2 0).repetition = 2 → (sm2Update none 2 0).interval = 6) ∧
        (2 < (sm2Update none 2 0).repetition →
          (sm2Update none 2 0).interval =
            round (((stateOrDefault none).interval : ℚ) * (stateOrDefault none).easeFactor))))) :=
  ⟨by norm_num, sm2Update_interval_repetition none 2 0 (by norm_num)⟩

/-- C2: the ease factor returned by `sm2Update` is always
max(1.3, easeFactor + (0.1 − (5−q)(0.08 + (5−q)·0.02))) with q = g·5/3,
rounded to two decimals, recomputed on every call including lapses; and
starting from any ease factor at least 1.3 (the default 2.5 included),
no sequence of grades ever brings the ease factor below 1.3. -/
theorem sm2Update_easeFactor_contract (state : Option Sm2State) (now : ℤ)
    (hef : 13 / 10 ≤ (stateOrDefault state).easeFactor) :
    (∀ g : ℚ, (sm2Update state g now).easeFactor =
      round2 (max (13 / 10) ((stateOrDefault state).easeFactor +
        (1 / 10 - (5 - g * 5 / 3) * (2 / 25 + (5 - g * 5 / 3) * (1 / 50)))))) ∧
    (∀ gs : List ℚ, 13 / 10 ≤ (stateOrDefault (runGrades state gs now)).easeFactor) := by
  constructor
  · intro g
    rw [sm2Update_easeFactor_eq]
    rfl
  · intro gs
    exact runGrades_easeFactor_floor now gs state hef

/-- Witness for C2 at state = none (default 2.5 ease). -/
theorem sm2Update_easeFactor_contract_witness :
    (13 / 10 ≤ (stateOrDefault none).easeFactor) ∧
    ((∀ g : ℚ, (sm2Update none g 0).easeFactor =
      round2 (max (13 / 10) ((stateOrDefault none).easeFactor +
        (1 / 10 - (5 - g * 5 / 3) * (2 / 25 + (5 - g * 5 / 3) * (1 / 50)))))) ∧
    (∀ gs : List ℚ, 13 / 10 ≤ (stateOrDefault (runGrades none gs 0)).easeFactor)) :=
  ⟨by norm_num [stateOrDefault, defaultSm2],
   sm2Update_easeFactor_contract none 0 (by norm_num [stateOrDefault, defaultSm2])⟩

theorem rateWord_absent (bank : List WordEntry) (word : String) (g : ℚ) (now : ℤ)
    (habs : bank.find? (fun w => w.word = word) = none) :
    rateWord bank word g now =
      bank ++ [{ word := word, source := "flashcard", addedAt := now,
                 sm2 := some (sm2Update none g now) }] := by
  have hall : ∀ w ∈ bank, ¬ (w.word = word) := by
    intro w hw
    have := List.find?_eq_none.mp habs w hw
    simpa using this
  have hmap : (bank.map fun w =>
      if w.word ≠ word then w else { w with sm2 := some (sm2Update w.sm2 g now) }) = bank := by
    have := List.map_congr_left (l := bank)
      (f := fun w => if w.word ≠ word then w
                     else { w with sm2 := some (sm2Update w.sm2 g now) }) (g := id)
      (fun w hw => by simp [hall w hw])
    simpa using this
  unfold rateWord
  simp only [hmap, habs]
  simp

/-- C3 counterexample: the grade 7 is outside the enum {0,1,2,3}, yet
`rateWord` performs a state mutation on the stored item (its `sm2` state
is overwritten) instead of rejecting the input. -/
theorem invalid_grade_not_rejected_cex :
    ((7 : ℚ) ≠ 0 ∧ (7 : ℚ) ≠ 1 ∧ (7 : ℚ) ≠ 2 ∧ (7 : ℚ) ≠ 3) ∧
    rateWord [{ word := "cat", source := "listening", addedAt := 0, sm2 := none }] "cat" 7 1 ≠
      [{ word := "cat", source := "listening", addedAt := 0, sm2 := none }] := by
  refine ⟨by norm_num, ?_⟩
  simp [rateWord]

/-- C3 amended: the scheduler performs no grade validation.  Any rating,
including values outside the four-level enum, is processed by the same
formulas, and `rateWord` mutates the store: rating an absent word with an
out-of-enum grade still appends a new entry built from
`sm2Update(null, grade)`. -/
theorem rateWord_processes_invalid_grades (bank : List WordEntry) (word : String)
    (g : ℚ) (now : ℤ)
    (_hg : g ≠ 0 ∧ g ≠ 1 ∧ g ≠ 2 ∧ g ≠ 3)
    (habs : bank.find? (fun w => w.word = word) = none) :
    rateWord bank word g now =
      bank ++ [{ word := word, source := "flashcard", addedAt := now,
                 sm2 := some (sm2Update none g now) }] :=
  rateWord_absent bank word g now habs

/-- Witness for the amended C3 at g = 7 on the empty bank. -/
theorem rateWord_processes_invalid_grades_witness :
    (((7 : ℚ) ≠ 0 ∧ (7 : ℚ) ≠ 1 ∧ (7 : ℚ) ≠ 2 ∧ (7 : ℚ) ≠ 3) ∧
      (List.find? (fun w => w.word = "cat") ([] : List WordEntry) = none)) ∧
    rateWord [] "cat" 7 5 =
      [] ++ [{ word := "cat", source := "flashcard", addedAt := 5,
               sm2 := some (sm2Update none 7 5) }] :=
  ⟨⟨by norm_num, rfl⟩, rateWord_processes_invalid_grades [] "cat" 7 5 (by norm_num) rfl⟩

/-- C4 counterexample: an item with no scheduling state is returned as due
by `getDueWords`, but the `Home` badge reader counts zero items due on the
same bank — so not every reader counts state-less items as due. -/
theorem home_badge_not_counting_stateless_cex :
    (getDueWords [{ word := "sun", source := "reading", addedAt := 0, sm2 := none }] 5).length = 1 ∧
    homeReviewDue [{ word := "sun", source := "reading", addedAt := 0, sm2 := none }] 5 = 0 := by
  constructor <;> rfl

/-- C4 amended: `getDueWords` (and `stats.due`, which counts it) treats an
item as due exactly when it has no scheduling state or its next review is
not after now; the `Home` badge reader instead counts exactly the due items
that HAVE a scheduling state, so an item with no state is counted due by
`getDueWords` and `stats` but not by the `Home` badge. -/
theorem due_readers_characterization (bank : List WordEntry) (now : ℤ) (w : WordEntry) :
    (w ∈ getDueWords bank now ↔
      w ∈ bank ∧ (w.sm2 = none ∨ ∃ s, w.sm2 = some s ∧ s.nextReview ≤ now)) ∧
    (stats bank now).due = (getDueWords bank now).length ∧
    homeReviewDue bank now = ((getDueWords bank now).filter fun x => x.sm2 ≠ none).length := by
  refine ⟨?_, rfl, ?_⟩
  · rw [getDueWords, List.mem_filter]
    rcases hs : w.sm2 with _ | s <;> simp [hs]
  · rw [getDueWords, homeReviewDue, List.filter_filter]
    congr 1
    apply List.filter_congr
    intro x _
    rcases hs : x.sm2 with _ | s <;> simp [hs]

/-- C9 counterexample: `setState`-style persistence for an identity absent
from the store (the empty bank) does not fail with Not-Found: `rateWord`
creates a brand-new item, so the store is mutated by the call. -/
theorem rateWord_not_found_cex :
    rateWord [] "dog" 3 0 ≠ [] := by
  simp [rateWord]

/-- C9 amended: rating an identity absent from the item store does not
surface a Not-Found error; instead `rateWord` appends a brand-new item
with provenance 'flashcard' and a fresh scheduling state computed by
`sm2Update(null, grade)`. -/
theorem rateWord_absent_creates_item (bank : List WordEntry) (word : String)
    (g : ℚ) (now : ℤ)
    (_hg : g = 0 ∨ g = 1 ∨ g = 2 ∨ g = 3)
    (habs : bank.find? (fun w => w.word = word) = none) :
    rateWord bank word g now =
      bank ++ [{ word := word, source := "flashcard", addedAt := now,
                 sm2 := some (sm2Update none g now) }] :=
  rateWord_absent bank word g now habs

/-- Witness for the amended C9 at g = 3 on the empty bank. -/
theorem rateWord_absent_creates_item_witness :
    (((3 : ℚ) = 0 ∨ (3 : ℚ) = 1 ∨ (3 : ℚ) = 2 ∨ (3 : ℚ) = 3) ∧
      (List.find? (fun w => w.word = "dog") ([] : List WordEntry) = none)) ∧
    rateWord [] "dog" 3 0 =
      [] ++ [{ word := "dog", source := "flashcard", addedAt := 0,
               sm2 := some (sm2Update none 3 0) }] :=
  ⟨⟨by norm_num, rfl⟩, rateWord_absent_creates_item [] "dog" 3 0 (by norm_num) rfl⟩

/-- An entry of the pages' word bank (localStorage key `word_bank`, used by
the Reading and Listening pages): `{ word, source, addedAt }`. -/
structure BankWord where
  word : String
  source : String
  addedAt : ℤ
  deriving Repr, DecidableEq

/-- `word.replace(/[^a-zA-Z'-]/g, '')` from the pages' `handleWordClick`:
keep only ASCII letters, apostrophes and hyphens. -/
def cleanWord (w : String) : String :=
  String.mk (w.toList.filter fun c => c.isAlpha || c == Char.ofNat 39 || c == Char.ofNat 45)

/-- `handleWordClick` of `Reading.jsx` (line 208): strips punctuation and
selects words longer than one character — it does NOT lowercase. -/
def handleWordClickReading (word : String) : Option String :=
  let clean := cleanWord word
  if 1 < clean.length then some clean else none

/-- JavaScript `toLowerCase()` on the ASCII words this app handles:
lowercase character by character. -/
def lowerString (s : String) : String :=
  String.mk (s.toList.map Char.toLower)

/-- `handleWordClick` of `Listening.jsx` (line 71): same stripping, but
lowercases the selected word. -/
def handleWordClickListening (word : String) : Option String :=
  let clean := cleanWord word
  if 1 < clean.length then some (lowerString clean) else none

/-- The `addToWordBank` upsert used by both `Listening.jsx` and
`Reading.jsx`: if an entry with exactly the same `word` string exists, do
nothing; otherwise push `{ word, source, addedAt }`. -/
def addToWordBank (bank : List BankWord) (selectedWord source : String) (now : ℤ) :
    List BankWord :=
  if (bank.find? fun w => w.word = selectedWord).isSome then bank
  else bank ++ [{ word := selectedWord, source := source, addedAt := now }]

/-- C8 counterexample: "cat" added via Listening and "Cat" added via
Reading have the same case-insensitive identity (`"Cat".toLower = "cat"`),
yet the second upsert is not a no-op: it stores a second entry, because
the store matches words case-sensitively and Reading does not lowercase. -/
theorem upsert_case_sensitivity_cex :
    handleWordClickListening "cat" = some "cat" ∧
    handleWordClickReading "Cat" = some "Cat" ∧
    lowerString "Cat" = "cat" ∧
    addToWordBank (addToWordBank [] "cat" "listening" 0) "Cat" "reading" 1 ≠
      addToWordBank [] "cat" "listening" 0 := by
  refine ⟨by decide, by decide, by decide, by decide⟩

/-- C8 amended: the upsert is idempotent by EXACT word string: re-adding
the identical word, even with a different provenance tag and timestamp, is
a no-op that leaves the originally stored entry unchanged (first
registration wins).  Identity is case-sensitive at the store level;
Listening lowercases words before adding while Reading does not, so case
variants of the same word create separate entries. -/
theorem addToWordBank_idempotent (bank : List BankWord) (word s1 s2 : String)
    (t1 t2 : ℤ) :
    addToWordBank (addToWordBank bank word s1 t1) word s2 t2 =
      addToWordBank bank word s1 t1 := by
  have hsome : ((addToWordBank bank word s1 t1).find? fun w => w.word = word).isSome = true := by
    rw [List.find?_isSome]
    unfold addToWordBank
    split
    · rename_i h
      rw [List.find?_isSome] at h
      simpa using h
    · exact ⟨{ word := word, source := s1, addedAt := t1 }, by simp, by simp⟩
  generalize hb : addToWordBank bank word s1 t1 = b1 at hsome ⊢
  unfold addToWordBank
  rw [if_pos hsome]

/-- A typed view of the relevant localStorage contents: each key of
interest holds a JSON array of a fixed record shape. -/
inductive StoredVal where
  | pageWords : List BankWord → StoredVal
  | hookWords : List WordEntry → StoredVal
  deriving DecidableEq

/-- localStorage as a keyed map. -/
def LocalStore := String → Option StoredVal

/-- `localStorage.setItem(k, v)`. -/
def setKey (ls : LocalStore) (k : String) (v : StoredVal) : LocalStore :=
  fun k2 => if k2 = k then some v else ls k2

/-- `JSON.parse(localStorage.getItem('word_bank') || '[]')` as done by the
Reading and Listening pages. -/
def getPageBank (ls : LocalStore) : List BankWord :=
  match ls "word_bank" with
  | some (StoredVal.pageWords l) => l
  | _ => []

/-- `JSON.parse(localStorage.getItem('pet_word_bank') || '[]')` as done by
`useSpacedRepetition` and the `Home` component. -/
def getHookBank (ls : LocalStore) : List WordEntry :=
  match ls "pet_word_bank" with
  | some (StoredVal.hookWords l) => l
  | _ => []

/-- The pages' add-to-word-bank click as a whole-storage operation: read
key `word_bank`, upsert, write key `word_bank`. -/
def pageAddToWordBank (ls : LocalStore) (word source : String) (now : ℤ) : LocalStore :=
  setKey ls "word_bank" (StoredVal.pageWords (addToWordBank (getPageBank ls) word source now))

/-- C10: the Reading/Listening add-to-word-bank writes only the key
`word_bank`; every other key — in particular `pet_word_bank`, the only key
the spaced-repetition hook and the Home badge read — is untouched, so the
scheduler's item store, due set, stats and badge count are unchanged by
the add. -/
theorem pageAddToWordBank_frame (ls : LocalStore) (word s : String) (now tNow : ℤ) :
    (∀ k, k ≠ "word_bank" → pageAddToWordBank ls word s now k = ls k) ∧
    pageAddToWordBank ls word s now "pet_word_bank" = ls "pet_word_bank" ∧
    getHookBank (pageAddToWordBank ls word s now) = getHookBank ls ∧
    getDueWords (getHookBank (pageAddToWordBank ls word s now)) tNow =
      getDueWords (getHookBank ls) tNow ∧
    stats (getHookBank (pageAddToWordBank ls word s now)) tNow =
      stats (getHookBank ls) tNow ∧
    homeReviewDue (getHookBank (pageAddToWordBank ls word s now)) tNow =
      homeReviewDue (getHookBank ls) tNow := by
  have hframe : ∀ k, k ≠ "word_bank" → pageAddToWordBank ls word s now k = ls k := by
    intro k hk
    unfold pageAddToWordBank setKey
    rw [if_neg hk]
  have hpet : pageAddToWordBank ls word s now "pet_word_bank" = ls "pet_word_bank" :=
    hframe _ (by decide)
  have hbank : getHookBank (pageAddToWordBank ls word s now) = getHookBank ls := by
    unfold getHookBank
    rw [hpet]
  exact ⟨hframe, hpet, hbank, by rw [hbank], by rw [hbank], by rw [hbank]⟩

/-- Witness for C10 on the empty storage, reading back the scheduler key. -/
theorem pageAddToWordBank_frame_witness :
    pageAddToWordBank (fun _ => none) "cat" "reading" 0 "pet_word_bank" =
      (fun _ => none : LocalStore) "pet_word_bank" :=
  (pageAddToWordBank_frame (fun _ => none) "cat" "reading" 0 0).2.1

/-- A saved review/flashcard card of the vanilla app (key `pet_review_due`):
`{ word, unitId, sessionId, added?, errors? }`; fallback-built cards carry
no `added`/`errors` fields. -/
structure ReviewCard where
  word : String
  unitId : ℕ
  sessionId : ℕ
  added : Option ℤ := none
  errors : Option ℕ := none
  deriving Repr, DecidableEq

/-- An aggregated error record of the word-flashcard flow (key
`pet_errors` in `src/unnamed/part_001`):
`{ word, unitId, sessionId, count, lastTime }`. -/
structure ErrorRecord where
  word : String
  unitId : ℕ
  sessionId : ℕ
  count : ℕ
  lastTime : ℤ
  deriving Repr, DecidableEq

/-- `existing.count++; existing.lastTime = Date.now()` applied to the
FIRST record whose `word` matches (JS `find` returns the first match). -/
def bumpFirst (now : ℤ) (word : String) : List ErrorRecord → List ErrorRecord
  | [] => []
  | e :: es =>
    if e.word = word then { e with count := e.count + 1, lastTime := now } :: es
    else e :: bumpFirst now word es

/-- `recordError(card)` of `src/unnamed/part_001`: look up an existing
record by WORD only (unit/session context is not part of the key);
increment it if found, else push a fresh record with count 1. -/
def recordError (list : List ErrorRecord) (card : ReviewCard) (now : ℤ) :
    List ErrorRecord :=
  if (list.find? fun e => e.word = card.word).isSome then bumpFirst now card.word list
  else list ++ [{ word := card.word, unitId := card.unitId, sessionId := card.sessionId,
                  count := 1, lastTime := now }]

/-- A graded quiz question as consumed by `recordExerciseError`. -/
structure QuizQuestionRecord where
  question : String
  options : List String
  userAnswer : Option String
  answer : String
  explanation : Option String
  deriving Repr, DecidableEq

/-- The current session's `{ title, type }` as read by `getSession()`. -/
structure SessionInfo where
  title : String
  type : String
  deriving Repr, DecidableEq

/-- An exercise-error record of `js/app.js` (`recordExerciseError`). -/
structure ExerciseError where
  id : String
  question : String
  options : List String
  userAnswer : String
  correctAnswer : String
  explanation : String
  session : String
  type : String
  time : ℤ
  deriving Repr, DecidableEq

/-- `recordExerciseError(q)` of `js/app.js` (lines 925-940): always push a
new record with a fresh `'err_' + Date.now()` id — no lookup, no
aggregation. -/
def recordExerciseError (list : List ExerciseError) (q : QuizQuestionRecord)
    (session : Option SessionInfo) (now : ℤ) : List ExerciseError :=
  list ++ [{ id := "err_" ++ toString now,
             question := q.question,
             options := q.options,
             userAnswer := q.userAnswer.getD "",
             correctAnswer := q.answer,
             explanation := q.explanation.getD "",
             session := (session.map SessionInfo.title).getD "",
             type := (session.map SessionInfo.type).getD "",
             time := now }]

/-- A sample failing quiz question, used to exercise the error log. -/
def sampleQuiz : QuizQuestionRecord :=
  { question := "2+2?", options := ["3", "4"], userAnswer := some "3",
    answer := "4", explanation := none }

/-- C6 counterexample: in the exercise flow, recording the same failing
question twice produces TWO records (each with its own id), not one
aggregated record with count 2. -/
theorem error_aggregation_cex :
    (recordExerciseError (recordExerciseError [] sampleQuiz none 0) sampleQuiz none 1).length
        = 2 ∧
    ((recordExerciseError (recordExerciseError [] sampleQuiz none 0) sampleQuiz none 1).all
      fun e => e.question == "2+2?") = true := by
  constructor <;> rfl

/-- C6 amended: only the word-flashcard flow aggregates, and it keys by
word alone: n repeated failures of the same card starting from an empty
log yield exactly one record with count n, and any existing record whose
word matches is bumped even when the unit/session context differs.  The
exercise flow (`recordExerciseError`) never aggregates: every failure
appends one more record. -/
theorem error_log_aggregation (card : ReviewCard) (now : ℤ) (n : ℕ) (hn : 1 ≤ n) :
    (fun l => recordError l card now)^[n] [] =
      [{ word := card.word, unitId := card.unitId, sessionId := card.sessionId,
         count := n, lastTime := now }] ∧
    (∀ (e : ErrorRecord) (card2 : ReviewCard), e.word = card2.word →
      recordError [e] card2 now = [{ e with count := e.count + 1, lastTime := now }]) ∧
    (∀ (list : List ExerciseError) (q : QuizQuestionRecord)
        (s : Option SessionInfo) (t : ℤ),
      (recordExerciseError list q s t).length = list.length + 1) := by
  refine ⟨?_, ?_, ?_⟩
  · have key : ∀ m : ℕ, (fun l => recordError l card now)^[m + 1] [] =
        [{ word := card.word, unitId := card.unitId, sessionId := card.sessionId,
           count := m + 1, lastTime := now }] := by
      intro m
      induction m with
      | zero => simp [recordError]
      | succ k ih =>
        rw [Function.iterate_succ_apply', ih]
        simp [recordError, bumpFirst]
    obtain ⟨m, rfl⟩ : ∃ m, n = m + 1 := ⟨n - 1, by omega⟩
    exact key m
  · intro e card2 he
    simp [recordError, bumpFirst, he]
  · intro list q s t
    simp [recordExerciseError]

/-- Witness for the amended C6: three failures of the same card yield one
record with count 3. -/
theorem error_log_aggregation_witness :
    (1 ≤ 3) ∧
    (fun l => recordError l { word := "cat", unitId := 1, sessionId := 2 } 5)^[3] [] =
      [{ word := "cat", unitId := 1, sessionId := 2, count := 3, lastTime := 5 }] :=
  ⟨by norm_num,
   (error_log_aggregation { word := "cat", unitId := 1, sessionId := 2 } 5 3 (by norm_num)).1⟩

/-- One step of a stable comparator sort: place `x` before the first `y`
with `cmp x y ≤ 0`.  JavaScript `Array.prototype.sort` is stable, so for
a consistent comparator its output is exactly this insertion order. -/
def sortCmpInsert {α : Type} (cmp : α → α → ℤ) (x : α) : List α → List α
  | [] => [x]
  | y :: ys => if cmp x y ≤ 0 then x :: y :: ys else y :: sortCmpInsert cmp x ys

/-- JavaScript `list.sort(cmp)` for a consistent comparator, realised as a
stable insertion sort. -/
def jsSortBy {α : Type} (cmp : α → α → ℤ) : List α → List α
  | [] => []
  | x :: xs => sortCmpInsert cmp x (jsSortBy cmp xs)

/-- `list.sort((a, b) => b.count - a.count)` from `renderErrors` in
`src/unnamed/part_001` (line 299): the only sort applied to the error
log listing. -/
def sortErrorsByCount (list : List ErrorRecord) : List ErrorRecord :=
  jsSortBy (fun a b => (b.count : ℤ) - (a.count : ℤ)) list

theorem sortCmpInsert_perm {α : Type} (cmp : α → α → ℤ) (x : α) (l : List α) :
    (sortCmpInsert cmp x l).Perm (x :: l) := by
  induction l with
  | nil => exact List.Perm.refl _
  | cons y ys ih =>
    unfold sortCmpInsert
    split
    · exact List.Perm.refl _
    · exact (List.Perm.cons y ih).trans (List.Perm.swap x y ys)

theorem jsSortBy_perm {α : Type} (cmp : α → α → ℤ) (l : List α) :
    (jsSortBy cmp l).Perm l := by
  induction l with
  | nil => exact List.Perm.refl _
  | cons x xs ih =>
    exact (sortCmpInsert_perm cmp x (jsSortBy cmp xs)).trans (List.Perm.cons x ih)

theorem sortCmpInsert_sorted_count (x : ErrorRecord) (l : List ErrorRecord)
    (hl : List.Sorted (fun a b => b.count ≤ a.count) l) :
    List.Sorted (fun a b => b.count ≤ a.count)
      (sortCmpInsert (fun a b => (b.count : ℤ) - (a.count : ℤ)) x l) := by
  induction l with
  | nil => simp [sortCmpInsert]
  | cons y ys ih =>
    rw [List.sorted_cons] at hl
    unfold sortCmpInsert
    split
    · rename_i hc
      have hyx : y.count ≤ x.count := by exact_mod_cast sub_nonpos.mp hc
      rw [List.sorted_cons]
      refine ⟨?_, List.sorted_cons.mpr hl⟩
      intro b hb
      rcases List.mem_cons.mp hb with rfl | hb2
      · exact hyx
      · exact (hl.1 b hb2).trans hyx
    · rename_i hc
      have hxy : x.count ≤ y.count := by
        have := lt_of_not_le hc
        have := sub_pos.mp this
        exact_mod_cast this.le
      rw [List.sorted_cons]
      refine ⟨?_, ih hl.2⟩
      intro b hb
      have hb2 : b ∈ x :: ys :=
        (sortCmpInsert_perm (fun a b => (b.count : ℤ) - (a.count : ℤ)) x ys).mem_iff.mp hb
      rcases List.mem_cons.mp hb2 with rfl | hb3
      · exact hxy
      · exact hl.1 b hb3

theorem sortErrorsByCount_sorted (list : List ErrorRecord) :
    List.Sorted (fun a b => b.count ≤ a.count) (sortErrorsByCount list) := by
  unfold sortErrorsByCount
  induction list with
  | nil => simp [jsSortBy]
  | cons x xs ih => exact sortCmpInsert_sorted_count x _ ih

theorem sortCmpInsert_filter_count_eq (x : ErrorRecord) (c : ℕ) (hx : x.count = c)
    (l : List ErrorRecord) :
    (sortCmpInsert (fun a b => (b.count : ℤ) - (a.count : ℤ)) x l).filter
        (fun e => e.count = c) =
      x :: l.filter (fun e => e.count = c) := by
  induction l with
  | nil => simp [sortCmpInsert, hx]
  | cons y ys ih =>
    unfold sortCmpInsert
    split
    · simp [hx]
    · rename_i hc
      have hyc : ¬ (y.count = c) := by
        have := lt_of_not_le hc
        have hlt : x.count < y.count := by exact_mod_cast sub_pos.mp this
        omega
      simp only [List.filter_cons]
      rw [if_neg (by simpa using hyc), if_neg (by simpa using hyc)]
      exact ih

theorem sortCmpInsert_filter_count_ne (x : ErrorRecord) (c : ℕ) (hx : ¬ x.count = c)
    (l : List ErrorRecord) :
    (sortCmpInsert (fun a b => (b.count : ℤ) - (a.count : ℤ)) x l).filter
        (fun e => e.count = c) =
      l.filter (fun e => e.count = c) := by
  induction l with
  | nil => simp [sortCmpInsert, hx]
  | cons y ys ih =>
    unfold sortCmpInsert
    split
    · simp [hx]
    · simp only [List.filter_cons]
      rw [ih]

/-- C7 counterexample inputs: two records with equal failure counts, the
earlier-stored one having the OLDER last-failure timestamp. -/
def errOld : ErrorRecord :=
  { word := "old", unitId := 1, sessionId := 1, count := 2, lastTime := 100 }

/-- Companion record to `errOld` with the same count but a more recent
last-failure timestamp, stored second. -/
def errNew : ErrorRecord :=
  { word := "new", unitId := 1, sessionId := 1, count := 2, lastTime := 200 }

/-- C7 counterexample: on a tie in failure count the sort keeps the stored
order — the record with the OLDER timestamp stays first, contradicting the
claimed most-recent-first tie-break, which would put `errNew` first. -/
theorem error_sort_no_timestamp_tiebreak_cex :
    sortErrorsByCount [errOld, errNew] = [errOld, errNew] ∧
    errOld.count = errNew.count ∧ errOld.lastTime < errNew.lastTime := by
  refine ⟨by decide, by decide, by decide⟩

/-- C7 amended: the error-log listing is sorted by failure count
descending ONLY; records with equal counts keep their original stored
order (the sort is stable), with no timestamp tie-break.  Formally: the
output is a permutation of the input, its counts are non-increasing, and
for each count value the subsequence of records with that count is the
input's subsequence unchanged. -/
theorem sortErrorsByCount_spec (list : List ErrorRecord) :
    (sortErrorsByCount list).Perm list ∧
    List.Sorted (fun a b => b.count ≤ a.count) (sortErrorsByCount list) ∧
    ∀ c : ℕ, (sortErrorsByCount list).filter (fun e => e.count = c) =
      list.filter (fun e => e.count = c) := by
  refine ⟨jsSortBy_perm _ list, sortErrorsByCount_sorted list, ?_⟩
  intro c
  unfold sortErrorsByCount
  induction list with
  | nil => simp [jsSortBy]
  | cons x xs ih =>
    show (sortCmpInsert _ x (jsSortBy _ xs)).filter (fun e => e.count = c) = _
    by_cases hx : x.count = c
    · rw [sortCmpInsert_filter_count_eq x c hx, ih]
      simp [List.filter_cons, hx]
    · rw [sortCmpInsert_filter_count_ne x c hx, ih]
      simp [List.filter_cons, hx]

/-- The destructuring swap `[list[i], list[j]] = [list[j], list[i]]` of the
shuffle loop, a no-op when an index is out of range (the loop keeps both
in range). -/
def listSwap {α : Type} (l : List α) (i j : ℕ) : List α :=
  match l[i]?, l[j]? with
  | some a, some b => (l.set i b).set j a
  | _, _ => l

theorem cons_set_perm {α : Type} :
    ∀ (xs : List α) (m : ℕ) (b x : α), xs[m]? = some b →
      (b :: xs.set m x).Perm (x :: xs) := by
  intro xs
  induction xs with
  | nil => intro m b x h; simp at h
  | cons y t ih =>
    intro m b x h
    match m, h with
    | 0, h =>
      simp at h
      rw [← h]
      exact List.Perm.swap x y t
    | Nat.succ k, h =>
      simp at h
      have h1 := ih k b x h
      have e1 : (y :: t).set (k + 1) x = y :: t.set k x := by simp
      rw [e1]
      exact (List.Perm.swap y b (t.set k x)).trans
        ((List.Perm.cons y h1).trans (List.Perm.swap x y t))

theorem set_set_swap_perm {α : Type} :
    ∀ (l : List α) (i j : ℕ) (a b : α), l[i]? = some a → l[j]? = some b →
      ((l.set i b).set j a).Perm l := by
  intro l
  induction l with
  | nil => intro i j a b hi hj; simp at hi
  | cons c t ih =>
    intro i j a b hi hj
    match i, j, hi, hj with
    | 0, 0, hi, hj =>
      simp at hi hj
      subst hi; subst hj
      simp
    | 0, Nat.succ m, hi, hj =>
      simp at hi hj
      rw [hi]
      simpa using cons_set_perm t m b a hj
    | Nat.succ n, 0, hi, hj =>
      simp at hi hj
      rw [hj]
      simpa using cons_set_perm t n a b hi
    | Nat.succ n, Nat.succ m, hi, hj =>
      simp at hi hj
      simpa using List.Perm.cons c (ih n m a b hi hj)

theorem listSwap_perm {α : Type} (l : List α) (i j : ℕ)
    (hi : i < l.length) (hj : j < l.length) : (listSwap l i j).Perm l := by
  unfold listSwap
  rw [List.getElem?_eq_getElem hi, List.getElem?_eq_getElem hj]
  exact set_set_swap_perm l i j _ _ (List.getElem?_eq_getElem hi) (List.getElem?_eq_getElem hj)

theorem listSwap_length {α : Type} (l : List α) (i j : ℕ) :
    (listSwap l i j).length = l.length := by
  unfold listSwap
  rcases h1 : l[i]? with _ | a <;> rcases h2 : l[j]? with _ | b <;> simp

/-- The Fisher-Yates shuffle loop of `startReview`:
`for (let i = list.length - 1; i > 0; i--) { const j = Math.floor(Math.random() * (i + 1)); swap }`,
with the random draws injected: `rand i % (i + 1)` stands for
`Math.floor(Math.random() * (i + 1))`, which always lies in `[0, i]`.
After the swap at index `i`, position `i` is final and the loop continues
on the prefix. -/
def fyShuffle {α : Type} (rand : ℕ → ℕ) (l : List α) : List α :=
  if _h : l.length ≤ 1 then l
  else
    let i := l.length - 1
    let l2 := listSwap l i (rand i % (i + 1))
    fyShuffle rand (l2.take i) ++ l2.drop i
termination_by l.length
decreasing_by
  simp only [List.length_take, listSwap_length]
  omega

theorem fyShuffle_perm_aux {α : Type} (rand : ℕ → ℕ) :
    ∀ (n : ℕ) (l : List α), l.length = n → (fyShuffle rand l).Perm l := by
  intro n
  induction n using Nat.strong_induction_on with
  | _ n ih =>
    intro l hl
    rw [fyShuffle]
    split
    · exact List.Perm.refl l
    · rename_i hlen
      have hpos : 2 ≤ l.length := by omega
      have hi : l.length - 1 < l.length := by omega
      have hj : rand (l.length - 1) % (l.length - 1 + 1) < l.length := by
        have hm : rand (l.length - 1) % (l.length - 1 + 1) < l.length - 1 + 1 :=
          Nat.mod_lt _ (by omega)
        omega
      have hswap : (listSwap l (l.length - 1) (rand (l.length - 1) % (l.length - 1 + 1))).Perm l :=
        listSwap_perm l _ _ hi hj
      have hlen2 : (listSwap l (l.length - 1) (rand (l.length - 1) % (l.length - 1 + 1))).length
          = l.length := listSwap_length l _ _
      have htake : ((listSwap l (l.length - 1)
          (rand (l.length - 1) % (l.length - 1 + 1))).take (l.length - 1)).length
          = l.length - 1 := by
        simp [List.length_take, hlen2]
      have hihp := ih (l.length - 1) (by omega) _ htake
      have hsplit : ((listSwap l (l.length - 1)
            (rand (l.length - 1) % (l.length - 1 + 1))).take (l.length - 1) ++
          (listSwap l (l.length - 1) (rand (l.length - 1) % (l.length - 1 + 1))).drop
            (l.length - 1)).Perm l := by
        rw [List.take_append_drop]
        exact hswap
      exact (hihp.append_right _).trans hsplit

theorem fyShuffle_perm {α : Type} (rand : ℕ → ℕ) (l : List α) :
    (fyShuffle rand l).Perm l :=
  fyShuffle_perm_aux rand l.length l rfl

/-- A lesson session from `units.json` as read by `startReview`:
`{ id, keyWords }` (`s.keyWords || []` is modelled as a total list). -/
structure Session where
  id : ℕ
  keyWords : List String
  deriving Repr, DecidableEq

/-- A unit from `units.json`: its sessions (named `StudyUnit` because
`Unit` is taken in Lean). -/
structure StudyUnit where
  sessions : List Session
  deriving Repr, DecidableEq

/-- The keyword-fallback builder inside `startReview`: for each session of
the current unit, push every keyword not already collected as an ad-hoc
card `{ word: kw, unitId: currentUnit, sessionId: s.id }`. -/
def buildFallback (unit : StudyUnit) (currentUnit : ℕ) : List ReviewCard :=
  unit.sessions.foldl
    (fun list s =>
      s.keyWords.foldl
        (fun list kw =>
          if (list.find? fun r => r.word = kw).isSome then list
          else list ++ [{ word := kw, unitId := currentUnit, sessionId := s.id }])
        list)
    []

/-- The scope filter at the top of `startReview`:
`if (scope === 'unit') list = list.filter(r => String(r.unitId) === String(currentUnit))`. -/
def scopedList (reviewList : List ReviewCard) (scope : String) (currentUnit : ℕ) :
    List ReviewCard :=
  if scope = "unit" then reviewList.filter fun r => r.unitId = currentUnit else reviewList

/-- `startReview(scope)` from `js/app.js` (lines 1074-1101) and
`src/unnamed/part_001` (lines 196-225): filter the saved review list by
scope; if empty, rebuild from the current unit's session keywords; if
still empty do nothing (`none`); otherwise Fisher-Yates shuffle the list
and present it. -/
def startReview (rand : ℕ → ℕ) (reviewList : List ReviewCard) (scope : String)
    (currentUnit : ℕ) (units : ℕ → StudyUnit) : Option (List ReviewCard) :=
  let list := scopedList reviewList scope currentUnit
  let list2 := if list = [] then buildFallback (units currentUnit) currentUnit else list
  if list2 = [] then none else some (fyShuffle rand list2)

/-- The plain fallback candidate list: every keyword of the current unit's
sessions, in order, as an ad-hoc card. -/
def keywordCards (unit : StudyUnit) (currentUnit : ℕ) : List ReviewCard :=
  unit.sessions.flatMap fun s =>
    s.keyWords.map fun kw => { word := kw, unitId := currentUnit, sessionId := s.id }

theorem fallback_inner_fold (currentUnit sid : ℕ) :
    ∀ (kws : List String) (acc : List ReviewCard),
      (∀ kw ∈ kws, acc.find? (fun r => r.word = kw) = none) → kws.Nodup →
      kws.foldl
          (fun list kw =>
            if (list.find? fun r => r.word = kw).isSome then list
            else list ++ [{ word := kw, unitId := currentUnit, sessionId := sid }])
          acc
        = acc ++ kws.map fun kw => { word := kw, unitId := currentUnit, sessionId := sid } := by
  intro kws
  induction kws with
  | nil => intro acc _ _; simp
  | cons kw rest ih =>
    intro acc h hn
    have hfind : acc.find? (fun r => r.word = kw) = none := h kw (by simp)
    rw [List.foldl_cons, hfind]
    simp only [Option.isSome_none, Bool.false_eq_true, if_false]
    have hn2 := List.nodup_cons.mp hn
    have hpre : ∀ kw2 ∈ rest,
        List.find? (fun r => r.word = kw2)
          (acc ++ [({ word := kw, unitId := currentUnit, sessionId := sid } : ReviewCard)])
          = none := by
      intro kw2 hk2
      rw [List.find?_eq_none]
      intro x hx
      rcases List.mem_append.mp hx with hxa | hxs
      · have := List.find?_eq_none.mp (h kw2 (List.mem_cons_of_mem kw hk2)) x hxa
        simpa using this
      · have hxe : x = { word := kw, unitId := currentUnit, sessionId := sid } := by
          simpa using hxs
        subst hxe
        have : kw ≠ kw2 := fun he => hn2.1 (he ▸ hk2)
        simpa using this
    rw [ih _ hpre hn2.2]
    simp

theorem fallback_outer_fold (currentUnit : ℕ) :
    ∀ (sessions : List Session) (acc : List ReviewCard),
      (sessions.flatMap Session.keyWords).Nodup →
      (∀ kw ∈ sessions.flatMap Session.keyWords, acc.find? (fun r => r.word = kw) = none) →
      sessions.foldl
          (fun list s =>
            s.keyWords.foldl
              (fun list kw =>
                if (list.find? fun r => r.word = kw).isSome then list
                else list ++ [{ word := kw, unitId := currentUnit, sessionId := s.id }])
              list)
          acc
        = acc ++ sessions.flatMap fun s =>
            s.keyWords.map fun kw => { word := kw, unitId := currentUnit, sessionId := s.id } := by
  intro sessions
  induction sessions with
  | nil => intro acc _ _; simp
  | cons s rest ih =>
    intro acc hnd h
    rw [List.flatMap_cons] at hnd h
    have hparts := List.nodup_append.mp hnd
    rw [List.foldl_cons]
    rw [fallback_inner_fold currentUnit s.id s.keyWords acc
      (fun kw hk => h kw (List.mem_append_left _ hk)) hparts.1]
    have hpre : ∀ kw ∈ rest.flatMap Session.keyWords,
        List.find? (fun r => r.word = kw)
          (acc ++ s.keyWords.map fun kw2 =>
            ({ word := kw2, unitId := currentUnit, sessionId := s.id } : ReviewCard)) = none := by
      intro kw hk
      rw [List.find?_eq_none]
      intro x hx
      rcases List.mem_append.mp hx with hxa | hxs
      · have := List.find?_eq_none.mp (h kw (List.mem_append_right _ hk)) x hxa
        simpa using this
      · obtain ⟨kw0, hkw0, rfl⟩ := List.mem_map.mp hxs
        have : kw0 ≠ kw := fun he => hparts.2.2 (he ▸ hkw0) hk
        simpa using this
    rw [ih _ hparts.2.1 hpre]
    simp [List.flatMap_cons]

theorem buildFallback_eq_keywordCards (unit : StudyUnit) (currentUnit : ℕ)
    (h : (unit.sessions.flatMap Session.keyWords).Nodup) :
    buildFallback unit currentUnit = keywordCards unit currentUnit := by
  unfold buildFallback keywordCards
  have := fallback_outer_fold currentUnit unit.sessions [] h (fun kw _ => rfl)
  simpa using this

/-- C5: when the scoped saved review list is empty and the current unit's
sessions supply a non-empty (duplicate-free) keyword list, `startReview`
produces a session consisting of exactly those keywords as ad-hoc cards
(in the shuffled order of the session): a review session is always
produceable for a unit with content before any history exists. -/
theorem startReview_fallback (rand : ℕ → ℕ) (reviewList : List ReviewCard)
    (scope : String) (currentUnit : ℕ) (units : ℕ → StudyUnit)
    (hempty : scopedList reviewList scope currentUnit = [])
    (hnodup : ((units currentUnit).sessions.flatMap Session.keyWords).Nodup)
    (hne : keywordCards (units currentUnit) currentUnit ≠ []) :
    ∃ shuffled, startReview rand reviewList scope currentUnit units = some shuffled ∧
      shuffled.Perm (keywordCards (units currentUnit) currentUnit) := by
  have hb := buildFallback_eq_keywordCards (units currentUnit) currentUnit hnodup
  unfold startReview
  rw [hempty]
  simp only [hb, eq_self_iff_true, if_true]
  rw [if_neg hne]
  exact ⟨_, rfl, fyShuffle_perm rand _⟩

/-- Witness for C5: an empty store, scope "all", and a unit with one
session holding the keywords ["cat", "dog"]. -/
theorem startReview_fallback_witness :
    (scopedList [] "all" 1 = [] ∧
      (((fun _ => { sessions := [{ id := 1, keyWords := ["cat", "dog"] }] } :
          ℕ → StudyUnit) 1).sessions.flatMap Session.keyWords).Nodup ∧
      keywordCards ((fun _ => { sessions := [{ id := 1, keyWords := ["cat", "dog"] }] } :
          ℕ → StudyUnit) 1) 1 ≠ []) ∧
    (∃ shuffled, startReview (fun _ => 0) [] "all" 1
        (fun _ => { sessions := [{ id := 1, keyWords := ["cat", "dog"] }] }) = some shuffled ∧
      shuffled.Perm (keywordCards ((fun _ =>
        { sessions := [{ id := 1, keyWords := ["cat", "dog"] }] } : ℕ → StudyUnit) 1) 1)) :=
  ⟨⟨by decide, by decide, by decide⟩,
   startReview_fallback (fun _ => 0) [] "all" 1
     (fun _ => { sessions := [{ id := 1, keyWords := ["cat", "dog"] }] })
     (by decide) (by decide) (by decide)⟩
